import Mathlib

/-!
Shallow embedding of `src/data/dataset.py` from the CLIK repository: the
`_PlanBaseDataset.sample_prods` sampling routine, the construction sequence
of `_PlanBaseDataset.__init__` together with `verify_meta_data`, and the
state effect of `SemanticMatchingDataset.__getitem__` on the shared per-plan
grouped index `meta_access_by_plan_id`.

Modelling conventions.

A metadata row is `Row`, keeping only the columns the claims depend on:
`id`, `prod_id`, `plan_id` and the numeric target score (a rational, since
the scores are click-through rates or review counts and only their ordering
and arithmetic matter).  A pandas DataFrame holding one plan group is a
`List Row`; the transient synthetic `weight` column from the weighted
branches is carried separately, as a `List ℚ` parallel to the rows or as
`List (Row × ℚ)` pairs, so that dropping the column is dropping the `ℚ`
component.

`DataFrame.sample(n, weights=..., replace=False)` is modelled by
`wsampleIdx`: the caller supplies the list of row positions that the random
number generator would have produced, and the function returns `none`
exactly when pandas raises (requesting more rows than the population
without replacement, a negative weight, or fewer positive-weight rows than
requested, which also covers a zero total weight) or when the supplied
positions are not a possible outcome of the draw (wrong count, a repeat,
out of range, or a zero-weight row).  Plain `DataFrame.sample(n)` is
`usampleIdx`, the same without the weight conditions.  A uniform
`sample(1)` on a frame, followed by `squeeze()`, is `pick1`, which accepts
any natural number as its oracle and reduces it modulo the length, so every
oracle value denotes a possible draw; it returns `none` only on an empty
frame, where pandas raises.

`sort_values(by=..., ascending=False)` is modelled by insertion sort with
respect to the descending relation on the sort key.  The claims use only
that the result is a permutation of the input that is sorted descending,
which is true of the pandas quicksort as well; the order among tied keys is
not specified by pandas and no claim depends on it.

`np.random.uniform(size=len(plan)) * 1e-8` is an oracle `eps : Nat → ℚ`
giving the noise added at each row position; theorems that need the noise
to lie in the half-open interval `[0, 1e-8)` state that as a hypothesis.

`sample_prods` returns the Python value `None` when `n` matches no branch;
that is `SampleResult.nothing`, while a raised exception is `Option.none`.
-/

structure Row where
  id : Nat
  prodId : Nat
  planId : Nat
  target : ℚ
deriving DecidableEq, Repr, Inhabited

/-- The three recognized values of `sampling_method`. -/
inductive SMethod where
  | weighted
  | random
  | sequential
deriving DecidableEq, Repr

/-- Oracle for every random draw one call of `sample_prods` can make:
`eps` is the per-row uniform noise (already scaled by `1e-8`), `selK` the
positions produced by the 7-draw (or 5-draw, or the `random`-strategy
draw), `tie` the uniform pick among tied rows, and `selNeg` the positions
produced by the negative draw. -/
structure Draws where
  eps : Nat → ℚ
  selK : List Nat
  tie : Nat
  selNeg : List Nat

/-- Result of `sample_prods`: a squeezed single row (a pandas Series), a
DataFrame, or the Python value `None` from falling through every branch. -/
inductive SampleResult where
  | row (r : Row)
  | df (rs : List Row)
  | nothing
deriving DecidableEq, Repr

/-- Descending order on the target column, the key of
`sort_values(by=self.target, ascending=False)`. -/
def targetGE (a b : Row) : Prop := b.target ≤ a.target

instance : DecidableRel targetGE :=
  fun a b => inferInstanceAs (Decidable (b.target ≤ a.target))

instance : IsTotal Row targetGE := ⟨fun a b => le_total b.target a.target⟩

instance : IsTrans Row targetGE := ⟨fun _ _ _ hab hbc => le_trans hbc hab⟩

/-- Model of `plan.sort_values(by=self.target, ascending=False)`. -/
def sortDesc (l : List Row) : List Row := List.insertionSort targetGE l

/-- Descending order on the synthetic weight column, the key of
`sort_values(by="weight", ascending=False)`. -/
def wGE (a b : Row × ℚ) : Prop := b.2 ≤ a.2

instance : DecidableRel wGE :=
  fun a b => inferInstanceAs (Decidable (b.2 ≤ a.2))

instance : IsTotal (Row × ℚ) wGE := ⟨fun a b => le_total b.2 a.2⟩

instance : IsTrans (Row × ℚ) wGE := ⟨fun _ _ _ hab hbc => le_trans hbc hab⟩

/-- Model of `prods.sort_values(by="weight", ascending=False)`. -/
def sortDescW (l : List (Row × ℚ)) : List (Row × ℚ) :=
  List.insertionSort wGE l

/-- Maximum of a list of rationals, as `Series.max()` computes it on a
nonempty column (the `[]` case never arises on the paths that use it). -/
def listMax : List ℚ → ℚ
  | [] => 0
  | [x] => x
  | x :: y :: xs => max x (listMax (y :: xs))

/-- The synthetic weight column
`plan[self.target].values + np.random.uniform(size=len(plan)) * 1e-8`:
target score plus per-row noise. -/
def jitterWeights (plan : List Row) (eps : Nat → ℚ) : List ℚ :=
  plan.enum.map fun p => p.2.target + eps p.1

/-- Model of `df.sample(n=n, weights=w, replace=False)` returning the chosen
row positions.  `none` exactly when pandas raises, or when `sel` is not a
possible outcome of the weighted draw. -/
def wsampleIdx (ws : List ℚ) (n : Nat) (sel : List Nat) : Option (List Nat) :=
  if ws.length < n then none
  else if ws.any fun w => decide (w < 0) then none
  else if (ws.filter fun w => decide (0 < w)).length < n then none
  else if sel.length = n ∧ sel.Nodup ∧ ∀ i ∈ sel, i < ws.length ∧ 0 < ws.getD i 0
    then some sel
  else none

/-- Model of unweighted `df.sample(n=n, replace=False)` returning the chosen
row positions. -/
def usampleIdx (len : Nat) (n : Nat) (sel : List Nat) : Option (List Nat) :=
  if len < n then none
  else if sel.length = n ∧ sel.Nodup ∧ ∀ i ∈ sel, i < len then some sel
  else none

/-- Model of uniform `df.sample(1)` followed by `squeeze()`: any oracle
value is a possible draw on a nonempty frame; pandas raises on an empty
one. -/
def pick1 {α : Type} (l : List α) (k : Nat) : Option α :=
  l[k % l.length]?

/-- Fetch the rows at the given positions. -/
def idxSelect {α : Type} (l : List α) (sel : List Nat) : List α :=
  sel.filterMap fun i => l[i]?

/-- The negative-sampling weights
`plan_except_pos["weight"].max() - plan_except_pos["weight"]` over the rows
remaining after the positive row was dropped. -/
def negWeights (rem : List (Row × ℚ)) : List ℚ :=
  rem.map fun p => listMax (rem.map Prod.snd) - p.2

/-- The `weighted` branch of `sample_prods` for `n == 1`
(src/data/dataset.py lines 173-187): draw 7 rows weighted by the jittered
weight column, keep the drawn rows whose weight equals the maximum drawn
weight, drop the weight column, and pick one of them uniformly, squeezed to
a Series.  The Python locals are inlined. -/
def weightedOne (plan : List Row) (r : Draws) : Option SampleResult :=
  match wsampleIdx (jitterWeights plan r.eps) 7 r.selK with
  | none => none
  | some idxs =>
    match pick1 (idxs.filter fun i =>
        decide ((jitterWeights plan r.eps).getD i 0 =
          listMax (idxs.map fun i2 => (jitterWeights plan r.eps).getD i2 0)))
      r.tie with
    | none => none
    | some j => Option.map SampleResult.row plan[j]?

/-- The `weighted` branch of `sample_prods` for `n > 1`, `len(plan) != n`
(src/data/dataset.py lines 212-232): draw 5 rows weighted by the jittered
weight column and pick one of the max-tied rows as the positive; drop that
row from the frame; draw `n-1` negatives from the remaining rows weighted
by `(max remaining weight - own weight)`; concatenate positive and
negatives, sort by weight descending, drop the weight column.  The Python
locals are inlined. -/
def weightedMulti (plan : List Row) (n : Int) (r : Draws) :
    Option SampleResult :=
  match wsampleIdx (jitterWeights plan r.eps) 5 r.selK with
  | none => none
  | some idxs =>
    match pick1 (idxs.filter fun i =>
        decide ((jitterWeights plan r.eps).getD i 0 =
          listMax (idxs.map fun i2 => (jitterWeights plan r.eps).getD i2 0)))
      r.tie with
    | none => none
    | some ip =>
      match (plan.zip (jitterWeights plan r.eps))[ip]? with
      | none => none
      | some pos =>
        match wsampleIdx
            (negWeights ((plan.zip (jitterWeights plan r.eps)).eraseIdx ip))
            (n.toNat - 1) r.selNeg with
        | none => none
        | some nidxs =>
          some (.df ((sortDescW (pos ::
            idxSelect ((plan.zip (jitterWeights plan r.eps)).eraseIdx ip)
              nidxs)).map Prod.fst))

/-- Shallow embedding of `_PlanBaseDataset.sample_prods`
(src/data/dataset.py lines 153-243).  `method` is `self.sampling_method`,
`plan` the group passed in, `n` the requested count (a Python int), and `r`
the oracle for every random draw the call makes.  The in-place write of the
`weight` column onto the argument frame is modelled separately by
`planAfterSample`; this function computes the returned value. -/
def sampleProds (method : SMethod) (plan : List Row) (n : Int) (r : Draws) :
    Option SampleResult :=
  if n = -1 then
    some (.df (sortDesc plan))
  else if n = 1 then
    match method with
    | .random => Option.map SampleResult.row (pick1 plan r.tie)
    | .weighted => weightedOne plan r
    | .sequential =>
      let mx := listMax (plan.map Row.target)
      let tiedRows := plan.filter fun x => decide (x.target = mx)
      Option.map SampleResult.row (pick1 tiedRows r.tie)
  else if 1 < n then
    if plan.length = n.toNat then
      some (.df (sortDesc plan))
    else
      match method with
      | .random =>
        Option.map (fun idxs => .df (sortDesc (idxSelect plan idxs)))
          (usampleIdx plan.length n.toNat r.selK)
      | .weighted => weightedMulti plan n r
      | .sequential =>
        some (.df ((sortDesc plan).take n.toNat))
  else
    some .nothing

/-- A DataFrame object as mutable state: its rows, plus the synthetic
`weight` column if one has been written onto it. -/
structure DF where
  rows : List Row
  weightCol : Option (List ℚ)
deriving DecidableEq, Repr

/-- Effect of `plan["weight"] = plan[self.target].values + noise` on the
frame object. -/
def withWeight (df : DF) (eps : Nat → ℚ) : DF :=
  { df with weightCol := some (jitterWeights df.rows eps) }

/-- State of the argument frame after a call of `sample_prods` returns (or
raises): the weighted branches assign the `weight` column in place on the
frame object that was passed in, before any draw is attempted; every other
branch leaves the object untouched (the `sequential` branch for `n>1`
rebinds the local name `plan`, which does not mutate the object). -/
def planAfterSample (method : SMethod) (df : DF) (n : Int) (eps : Nat → ℚ) :
    DF :=
  if n = -1 then df
  else if n = 1 then
    if method = .weighted then withWeight df eps else df
  else if 1 < n then
    if df.rows.length = n.toNat then df
    else if method = .weighted then withWeight df eps else df
  else df

/-- State of a `_PlanBaseDataset` instance: `self.meta`,
`self.meta_access_by_plan_id` and `self.unique_plan_ids`. -/
structure DatasetState where
  meta : List Row
  grouped : List (Nat × DF)
  uniquePlanIds : List Nat
deriving DecidableEq, Repr

/-- Model of `dict(tuple(meta.groupby("plan_id")))`: one group per distinct
plan id, each holding the rows of that plan in table order.  (pandas sorts
the group keys; the claims do not depend on key order, so keys are listed
in order of first appearance.) -/
def groupByPlan (meta : List Row) : List (Nat × DF) :=
  ((meta.map Row.planId).dedup).map fun pid =>
    (pid, ⟨meta.filter fun x => decide (x.planId = pid), none⟩)

/-- Model of `_PlanBaseDataset.__init__` followed by `verify_meta_data`
(src/data/dataset.py lines 106-118 and 134-151): the grouped index and the
unique plan ids are built from the full table first; the verification pass
then drops the rows whose image file is missing from `self.meta` only, and
emits a warning (the returned Bool) exactly when at least one row was
dropped. -/
def initDataset (meta : List Row) (imgExists : Nat → Bool) :
    DatasetState × Bool :=
  let st : DatasetState :=
    { meta := meta
      grouped := groupByPlan meta
      uniquePlanIds := (meta.map Row.planId).dedup }
  if 0 < (meta.filter fun x => !(imgExists x.prodId)).length then
    ({ st with meta := meta.filter fun x => imgExists x.prodId }, true)
  else
    (st, false)

/-- Effect of `SemanticMatchingDataset.__getitem__(plan_id)` on the dataset
state (src/data/dataset.py lines 280-283): it calls
`self.sample_prods(self.meta_access_by_plan_id[plan_id])` with the default
`n=1`, passing the frame object stored in the grouped index itself, so the
in-place `weight`-column write of the weighted branch lands on that shared
object. -/
def smGetitemState (st : DatasetState) (method : SMethod) (pid : Nat)
    (eps : Nat → ℚ) : DatasetState :=
  { st with
    grouped := st.grouped.map fun e =>
      if e.1 = pid then (e.1, planAfterSample method e.2 1 eps) else e }

/-- `SemanticMatchingDataset.__len__`: the number of metadata rows. -/
def lenSemanticMatching (st : DatasetState) : Nat := st.meta.length

/-- `PreferenceDiscrimDataset.__len__`: the number of unique plan ids. -/
def lenPreferenceDiscrim (st : DatasetState) : Nat :=
  st.uniquePlanIds.length

/-!
The `Rat` arithmetic operations are `@[irreducible]` in the library; the
concrete witness evaluations below go through `decide`, which needs them to
reduce.
-/

unseal Rat.add Rat.mul Rat.inv Rat.sub Rat.ofScientific

/-! Supporting lemmas about the sampling primitives. -/

theorem sortDesc_perm (l : List Row) : (sortDesc l).Perm l :=
  List.perm_insertionSort _ _

theorem sortDesc_sorted (l : List Row) : List.Sorted targetGE (sortDesc l) :=
  List.sorted_insertionSort _ _

theorem sortDescW_perm (l : List (Row × ℚ)) : (sortDescW l).Perm l :=
  List.perm_insertionSort _ _

theorem sortDescW_sorted (l : List (Row × ℚ)) :
    List.Sorted wGE (sortDescW l) :=
  List.sorted_insertionSort _ _

theorem listMax_mem : ∀ {l : List ℚ}, l ≠ [] → listMax l ∈ l
  | [], h => absurd rfl h
  | [x], _ => by simp [listMax]
  | x :: y :: xs, _ => by
    rcases le_total x (listMax (y :: xs)) with hle | hle
    · have := listMax_mem (l := y :: xs) (by simp)
      simp only [listMax, max_eq_right hle]
      exact List.mem_cons_of_mem _ this
    · simp [listMax, max_eq_left hle]

theorem listMax_const {c : ℚ} :
    ∀ {l : List ℚ}, (∀ x ∈ l, x = c) → l ≠ [] → listMax l = c
  | [], _, h => absurd rfl h
  | [x], h, _ => by simpa [listMax] using h x (by simp)
  | x :: y :: xs, h, _ => by
    have hx : x = c := h x (by simp)
    have hrest : listMax (y :: xs) = c :=
      listMax_const (fun z hz => h z (List.mem_cons_of_mem _ hz)) (by simp)
    simp [listMax, hx, hrest]

theorem jitterWeights_length (plan : List Row) (eps : Nat → ℚ) :
    (jitterWeights plan eps).length = plan.length := by
  simp [jitterWeights]

theorem jitterWeights_getElem (plan : List Row) (eps : Nat → ℚ) (i : Nat)
    (h : i < plan.length) :
    (jitterWeights plan eps).getD i 0 = plan[i].target + eps i := by
  have hi : i < (jitterWeights plan eps).length := by
    rwa [jitterWeights_length]
  rw [List.getD_eq_getElem _ _ hi]
  simp [jitterWeights]

theorem jitterWeights_pos (plan : List Row) (eps : Nat → ℚ)
    (ht : ∀ x ∈ plan, 0 ≤ x.target) (he : ∀ i, i < plan.length → 0 < eps i) :
    ∀ w ∈ jitterWeights plan eps, 0 < w := by
  intro w hw
  obtain ⟨i, hi, hwi⟩ := List.mem_iff_getElem.mp hw
  rw [jitterWeights_length] at hi
  have : (jitterWeights plan eps).getD i 0 = w := by
    rw [List.getD_eq_getElem _ _ (by rwa [jitterWeights_length])]
    exact hwi
  rw [jitterWeights_getElem _ _ _ hi] at this
  have h1 := ht plan[i] (List.getElem_mem hi)
  have h2 := he i hi
  rw [← this]
  positivity

theorem wsampleIdx_eq_some {ws : List ℚ} {n : Nat} {sel out : List Nat}
    (h : wsampleIdx ws n sel = some out) :
    out = sel ∧ sel.length = n ∧ sel.Nodup ∧
      ∀ i ∈ sel, i < ws.length ∧ 0 < ws.getD i 0 := by
  unfold wsampleIdx at h
  split at h
  · exact absurd h (by simp)
  split at h
  · exact absurd h (by simp)
  split at h
  · exact absurd h (by simp)
  split at h
  · rename_i hcond
    exact ⟨(Option.some.inj h).symm, hcond.1, hcond.2.1, hcond.2.2⟩
  · exact absurd h (by simp)

theorem wsampleIdx_succeeds {ws : List ℚ} {n : Nat} {sel : List Nat}
    (hlen : n ≤ ws.length) (hpos : ∀ w ∈ ws, 0 < w)
    (hsel : sel.length = n) (hnd : sel.Nodup)
    (hb : ∀ i ∈ sel, i < ws.length) :
    wsampleIdx ws n sel = some sel := by
  unfold wsampleIdx
  rw [if_neg (by omega)]
  rw [if_neg (by
    simp only [List.any_eq_true, not_exists, not_and, decide_eq_true_eq]
    intro w hw
    simp only [decide_eq_true_eq, not_lt]
    exact le_of_lt (hpos w hw))]
  rw [List.filter_eq_self.mpr fun w hw => decide_eq_true (hpos w hw)]
  rw [if_neg (by omega)]
  rw [if_pos ⟨hsel, hnd, fun i hi => ⟨hb i hi, by
    rw [List.getD_eq_getElem _ _ (hb i hi)]
    exact hpos _ (List.getElem_mem (hb i hi))⟩⟩]

theorem wsampleIdx_none_of_all_zero {ws : List ℚ} {n : Nat} (hn : 1 ≤ n)
    (hz : ∀ w ∈ ws, w = 0) (sel : List Nat) : wsampleIdx ws n sel = none := by
  unfold wsampleIdx
  split
  · rfl
  split
  · rfl
  rw [if_pos ?_]
  have : ws.filter (fun w => decide (0 < w)) = [] := by
    rw [List.filter_eq_nil_iff]
    intro w hw
    simp [hz w hw]
  rw [this]
  simpa using hn

theorem pick1_exists {α : Type} {l : List α} (h : l ≠ []) (k : Nat) :
    ∃ a ∈ l, pick1 l k = some a := by
  have hl : 0 < l.length := List.length_pos.mpr h
  have hk : k % l.length < l.length := Nat.mod_lt _ hl
  exact ⟨l[k % l.length], List.getElem_mem hk, by
    simp [pick1, List.getElem?_eq_getElem hk]⟩

theorem pick1_mem {α : Type} {l : List α} {k : Nat} {a : α}
    (h : pick1 l k = some a) : a ∈ l :=
  List.getElem?_mem h

theorem pick1_singleton {α : Type} (a : α) (k : Nat) : pick1 [a] k = some a := by
  simp [pick1, Nat.mod_one]

theorem idxSelect_eq_map {α : Type} [Inhabited α] {l : List α}
    {sel : List Nat} (hb : ∀ i ∈ sel, i < l.length) :
    idxSelect l sel = sel.map fun i => l.getD i default := by
  induction sel with
  | nil => rfl
  | cons a t ih =>
    have ha : a < l.length := hb a (by simp)
    simp only [idxSelect, List.filterMap_cons, List.map_cons] at *
    rw [List.getElem?_eq_getElem ha, List.getD_eq_getElem _ _ ha]
    exact congrArg _ (ih fun i hi => hb i (List.mem_cons_of_mem _ hi))

theorem idxSelect_length {α : Type} [Inhabited α] {l : List α}
    {sel : List Nat} (hb : ∀ i ∈ sel, i < l.length) :
    (idxSelect l sel).length = sel.length := by
  rw [idxSelect_eq_map hb, List.length_map]

theorem length_filter_add_length_filter_not {α : Type} (l : List α)
    (p : α → Bool) :
    (l.filter p).length + (l.filter fun a => !(p a)).length = l.length := by
  induction l with
  | nil => rfl
  | cons a t ih =>
    cases h : p a <;> simp only [List.filter_cons, h] <;> simp <;> omega

/-! Claim theorems. -/

/-- C5: for every plan group and every strategy, `sample_prods` with `n = -1`
returns exactly the rows of the group as a DataFrame sorted by the target
column in descending order, with the length of the group unchanged. -/
theorem sampleProds_all_rows_sorted (method : SMethod) (plan : List Row)
    (r : Draws) :
    ∃ rows, sampleProds method plan (-1) r = some (.df rows) ∧
      rows.Perm plan ∧ List.Sorted targetGE rows ∧
      rows.length = plan.length := by
  refine ⟨sortDesc plan, ?_, sortDesc_perm plan, sortDesc_sorted plan,
    (sortDesc_perm plan).length_eq⟩
  simp [sampleProds]

/-- C10: for a requested count that is neither `-1`, nor `1`, nor greater
than `1` (so `n = 0` or `n ≤ -2`), `sample_prods` falls through every branch
and returns the Python value `None` without raising. -/
theorem sampleProds_fallthrough_returns_none (method : SMethod)
    (plan : List Row) (r : Draws) (n : Int) (h1 : n ≠ -1) (h2 : n ≠ 1)
    (h3 : ¬ 1 < n) :
    sampleProds method plan n r = some .nothing := by
  simp only [sampleProds]
  rw [if_neg h1, if_neg h2, if_neg h3]

/-- Witness for C10 at `n = 0`. -/
theorem sampleProds_fallthrough_returns_none_witness :
    sampleProds .weighted [] 0 ⟨fun _ => 0, [], 0, []⟩ = some .nothing :=
  sampleProds_fallthrough_returns_none _ _ _ _ (by decide) (by decide)
    (by decide)

/-- C3 counterexample: on a single-row group with `n = 1` the
`len(plan) == n` skip does not apply (it sits inside the `n > 1` branch
only); with the `weighted` strategy the call instead raises, because it
draws 7 rows without replacement from a 1-row frame, so it does not return
the whole group sorted by score. -/
theorem n_one_singleton_group_not_skipped :
    sampleProds .weighted [⟨0, 100, 1, 5⟩] 1 ⟨fun _ => 0, [0], 0, []⟩ =
      none ∧
    ([(⟨0, 100, 1, 5⟩ : Row)] : List Row).length = 1 ∧
    sortDesc [⟨0, 100, 1, 5⟩] = [⟨0, 100, 1, 5⟩] := by decide

/-- C3 (amended): for every recognized strategy, whenever `n > 1` equals
the group size, `sample_prods` skips sampling and returns the whole group
sorted by target score descending; the skip does not extend to `n = 1`. -/
theorem skip_sampling_when_count_matches_group (method : SMethod)
    (plan : List Row) (r : Draws) (n : Int) (h1 : 1 < n)
    (h2 : plan.length = n.toNat) :
    ∃ rows, sampleProds method plan n r = some (.df rows) ∧
      rows.Perm plan ∧ List.Sorted targetGE rows := by
  refine ⟨sortDesc plan, ?_, sortDesc_perm plan, sortDesc_sorted plan⟩
  simp only [sampleProds]
  rw [if_neg (by omega), if_neg (by omega), if_pos h1, if_pos h2]

/-- Witness for C3 (amended) on a two-row group with `n = 2`. -/
theorem skip_sampling_when_count_matches_group_witness :
    ∃ rows,
      sampleProds .weighted [⟨0, 100, 1, 3⟩, ⟨1, 101, 1, 5⟩] 2
        ⟨fun _ => 0, [], 0, []⟩ = some (.df rows) ∧
      rows.Perm [⟨0, 100, 1, 3⟩, ⟨1, 101, 1, 5⟩] ∧
      List.Sorted targetGE rows :=
  skip_sampling_when_count_matches_group .weighted _ _ 2 (by decide)
    (by decide)

/-- C4: calling `SemanticMatchingDataset.__getitem__` with the `weighted`
strategy writes the synthetic `weight` column in place onto the DataFrame
object stored in the shared grouped index `meta_access_by_plan_id`, because
the frame is passed to `sample_prods` without a copy; the shared state is
therefore changed, contradicting the claim.  The second conjunct exhibits
the new `weight` column on the shared group. -/
theorem sm_getitem_mutates_shared_grouped_index :
    smGetitemState ⟨[⟨0, 100, 1, 5⟩], [(1, ⟨[⟨0, 100, 1, 5⟩], none⟩)], [1]⟩
        .weighted 1 (fun _ => 0) ≠
      ⟨[⟨0, 100, 1, 5⟩], [(1, ⟨[⟨0, 100, 1, 5⟩], none⟩)], [1]⟩ ∧
    (smGetitemState ⟨[⟨0, 100, 1, 5⟩], [(1, ⟨[⟨0, 100, 1, 5⟩], none⟩)], [1]⟩
        .weighted 1 (fun _ => 0)).grouped =
      [(1, ⟨[⟨0, 100, 1, 5⟩], some [5]⟩)] := by decide

/-- C7: constructing a dataset on a one-row table whose product image is
missing drops the row from `self.meta` and warns, but the per-plan grouped
index `meta_access_by_plan_id` was built before `verify_meta_data` ran and
is never rebuilt, so the grouped index consulted by `__getitem__` still
holds the row whose image file is absent. -/
theorem grouped_index_keeps_missing_image_row :
    (initDataset [⟨0, 10, 1, 1⟩] (fun _ => false)).1.meta = [] ∧
    (initDataset [⟨0, 10, 1, 1⟩] (fun _ => false)).2 = true ∧
    (initDataset [⟨0, 10, 1, 1⟩] (fun _ => false)).1.grouped =
      [(1, ⟨[⟨0, 10, 1, 1⟩], none⟩)] := by decide

/-- C9 counterexample: for a dataset whose `__len__` counts unique plan ids
(`PreferenceDiscrimDataset`), dropping the one missing-image row does not
change the length: the table [(prod 10, plan 1), (prod 11, plan 1)] with
the image of product 11 absent still yields length 1, not 1 - 1 = 0. -/
theorem pd_length_not_decremented :
    (initDataset [⟨0, 10, 1, 1⟩, ⟨1, 11, 1, 2⟩]
        (fun p => decide (p = 10))).2 = true ∧
    lenPreferenceDiscrim (initDataset [⟨0, 10, 1, 1⟩, ⟨1, 11, 1, 2⟩]
        (fun p => decide (p = 10))).1 = 1 ∧
    ¬ (lenPreferenceDiscrim (initDataset [⟨0, 10, 1, 1⟩, ⟨1, 11, 1, 2⟩]
          (fun p => decide (p = 10))).1 =
        (([⟨0, 10, 1, 1⟩, ⟨1, 11, 1, 2⟩] : List Row).map
            Row.planId).dedup.length - 1) := by decide

/-- C9 (amended): construction on a table with exactly one row whose image
file is absent emits the warning and leaves a dataset whose row count
(`SemanticMatchingDataset.__len__`) is the original count minus one; a
dataset whose `__len__` counts unique plan ids keeps its length. -/
theorem row_count_drops_by_one_with_warning (meta : List Row)
    (img : Nat → Bool)
    (h : (meta.filter fun x => !(img x.prodId)).length = 1) :
    (initDataset meta img).2 = true ∧
    lenSemanticMatching (initDataset meta img).1 = meta.length - 1 := by
  have hlen := length_filter_add_length_filter_not meta fun x => img x.prodId
  unfold initDataset
  rw [if_pos (by omega)]
  refine ⟨rfl, ?_⟩
  simp only [lenSemanticMatching]
  omega

/-- Witness for C9 (amended). -/
theorem row_count_drops_by_one_with_warning_witness :
    (initDataset [⟨0, 10, 1, 1⟩, ⟨1, 11, 2, 2⟩]
        (fun p => decide (p = 10))).2 = true ∧
    lenSemanticMatching (initDataset [⟨0, 10, 1, 1⟩, ⟨1, 11, 2, 2⟩]
        (fun p => decide (p = 10))).1 =
      ([(⟨0, 10, 1, 1⟩ : Row), ⟨1, 11, 2, 2⟩] : List Row).length - 1 :=
  row_count_drops_by_one_with_warning _ _ (by decide)

/-- C6: for `sequential` sampling with `n = 1` on a non-empty group, the
returned row attains the maximum target value of the group, and when the
maximum is attained by a unique row, every call (any oracle) returns that
same row. -/
theorem sequential_single_returns_max_row (plan : List Row) (r : Draws)
    (h : plan ≠ []) :
    ∃ row ∈ plan,
      sampleProds .sequential plan 1 r = some (.row row) ∧
      row.target = listMax (plan.map Row.target) ∧
      ((plan.filter fun x =>
          decide (x.target = listMax (plan.map Row.target))).length = 1 →
        ∀ r2 : Draws, sampleProds .sequential plan 1 r2 = some (.row row)) := by
  have hred : ∀ r2 : Draws, sampleProds .sequential plan 1 r2 =
      Option.map SampleResult.row (pick1 (plan.filter fun x =>
        decide (x.target = listMax (plan.map Row.target))) r2.tie) := by
    intro r2
    simp [sampleProds]
  set mx := listMax (plan.map Row.target) with hmx
  set tiedRows := plan.filter fun x => decide (x.target = mx) with htr
  have hmem : mx ∈ plan.map Row.target := listMax_mem (by simpa using h)
  obtain ⟨x, hx, hxt⟩ := List.mem_map.mp hmem
  have htne : tiedRows ≠ [] := by
    have hxin : x ∈ tiedRows := List.mem_filter.mpr ⟨hx, by simp [hxt]⟩
    intro hcon
    rw [hcon] at hxin
    exact absurd hxin (List.not_mem_nil x)
  obtain ⟨row, hrowmem, hpick⟩ := pick1_exists htne r.tie
  refine ⟨row, List.mem_of_mem_filter hrowmem, ?_, ?_, ?_⟩
  · rw [hred r, hpick]
    rfl
  · have := List.of_mem_filter hrowmem
    simpa using this
  · intro hlen r2
    obtain ⟨a, ha⟩ := List.length_eq_one.mp hlen
    have hrow : row = a := by
      rw [ha] at hrowmem
      simpa using hrowmem
    rw [hred r2, ha, pick1_singleton, hrow]
    rfl

/-- Witness for C6 on a two-row group with a unique maximum. -/
theorem sequential_single_returns_max_row_witness :
    ∃ row ∈ ([⟨0, 100, 1, 5⟩, ⟨1, 101, 1, 3⟩] : List Row),
      sampleProds .sequential [⟨0, 100, 1, 5⟩, ⟨1, 101, 1, 3⟩] 1
          ⟨fun _ => 0, [], 0, []⟩ = some (.row row) ∧
      row.target =
        listMax (([⟨0, 100, 1, 5⟩, ⟨1, 101, 1, 3⟩] : List Row).map
          Row.target) ∧
      ((([⟨0, 100, 1, 5⟩, ⟨1, 101, 1, 3⟩] : List Row).filter fun x =>
          decide (x.target =
            listMax (([⟨0, 100, 1, 5⟩, ⟨1, 101, 1, 3⟩] : List Row).map
              Row.target))).length = 1 →
        ∀ r2 : Draws,
          sampleProds .sequential [⟨0, 100, 1, 5⟩, ⟨1, 101, 1, 3⟩] 1 r2 =
            some (.row row)) :=
  sequential_single_returns_max_row _ _ (by decide)

theorem sampleProds_weighted_one (plan : List Row) (r : Draws) :
    sampleProds .weighted plan 1 r = weightedOne plan r := by
  simp [sampleProds]

theorem sampleProds_weighted_multi (plan : List Row) (r : Draws) {n : Int}
    (h1 : 1 < n) (h2 : plan.length ≠ n.toNat) :
    sampleProds .weighted plan n r = weightedMulti plan n r := by
  simp only [sampleProds]
  rw [if_neg (by omega), if_neg (by omega), if_pos h1, if_neg h2]

theorem weightedOne_step {plan : List Row} {r : Draws} {sel : List Nat}
    (hs : wsampleIdx (jitterWeights plan r.eps) 7 r.selK = some sel) :
    weightedOne plan r =
      match pick1 (sel.filter fun i =>
          decide ((jitterWeights plan r.eps).getD i 0 =
            listMax (sel.map fun i2 => (jitterWeights plan r.eps).getD i2 0)))
        r.tie with
      | none => none
      | some j => Option.map SampleResult.row plan[j]? := by
  unfold weightedOne
  rw [hs]

theorem weightedMulti_step {plan : List Row} {r : Draws} {n : Int}
    {sel : List Nat}
    (hs : wsampleIdx (jitterWeights plan r.eps) 5 r.selK = some sel) :
    weightedMulti plan n r =
      match pick1 (sel.filter fun i =>
          decide ((jitterWeights plan r.eps).getD i 0 =
            listMax (sel.map fun i2 => (jitterWeights plan r.eps).getD i2 0)))
        r.tie with
      | none => none
      | some ip =>
        match (plan.zip (jitterWeights plan r.eps))[ip]? with
        | none => none
        | some pos =>
          match wsampleIdx
              (negWeights ((plan.zip (jitterWeights plan r.eps)).eraseIdx ip))
              (n.toNat - 1) r.selNeg with
          | none => none
          | some nidxs =>
            some (.df ((sortDescW (pos ::
              idxSelect ((plan.zip (jitterWeights plan r.eps)).eraseIdx ip)
                nidxs)).map Prod.fst)) := by
  unfold weightedMulti
  rw [hs]

/-- C1 counterexample: the claim quantifies over every non-empty plan
group, but on a non-empty group with fewer than 7 rows the `weighted`
`n = 1` branch raises (7-row draw without replacement from 3 rows), so no
row is returned. -/
theorem weighted_single_small_group_raises :
    ([⟨0, 100, 1, 5⟩, ⟨1, 101, 1, 4⟩, ⟨2, 102, 1, 3⟩] : List Row) ≠ [] ∧
    sampleProds .weighted [⟨0, 100, 1, 5⟩, ⟨1, 101, 1, 4⟩, ⟨2, 102, 1, 3⟩] 1
      ⟨fun _ => 0, [0, 1, 2], 0, []⟩ = none := by decide

/-- C1 (amended): on a plan group with at least 7 rows, with nonnegative
scores, noise in `(0, 1e-8)`, and any possible 7-row draw, the `weighted`
`n = 1` call returns one single squeezed row (no weight column), drawn
among the 7 selected positions, whose post-noise weight equals the maximum
post-noise weight among the 7 drawn rows; groups with fewer than 7 rows
raise instead. -/
theorem weighted_single_draw7_keep_max (plan : List Row) (r : Draws)
    (h7 : 7 ≤ plan.length)
    (ht : ∀ x ∈ plan, 0 ≤ x.target)
    (heps : ∀ i, i < plan.length → 0 < r.eps i ∧ r.eps i < 1 / 100000000)
    (hlen : r.selK.length = 7) (hnd : r.selK.Nodup)
    (hb : ∀ i ∈ r.selK, i < plan.length) :
    ∃ j ∈ r.selK, ∃ row, plan[j]? = some row ∧
      sampleProds .weighted plan 1 r = some (.row row) ∧
      (jitterWeights plan r.eps).getD j 0 =
        listMax (r.selK.map fun i => (jitterWeights plan r.eps).getD i 0) := by
  have hwlen := jitterWeights_length plan r.eps
  have hpos := jitterWeights_pos plan r.eps ht fun i hi => (heps i hi).1
  have hsamp : wsampleIdx (jitterWeights plan r.eps) 7 r.selK = some r.selK :=
    wsampleIdx_succeeds (by omega) hpos hlen hnd fun i hi => by
      rw [hwlen]
      exact hb i hi
  have hmapne :
      (r.selK.map fun i2 => (jitterWeights plan r.eps).getD i2 0) ≠ [] := by
    intro hcon
    have hc := congrArg List.length hcon
    simp [hlen] at hc
  obtain ⟨j0, hj0, hj0w⟩ := List.mem_map.mp (listMax_mem hmapne)
  have htne : (r.selK.filter fun i =>
      decide ((jitterWeights plan r.eps).getD i 0 =
        listMax (r.selK.map fun i2 =>
          (jitterWeights plan r.eps).getD i2 0))) ≠ [] := by
    have hj0in : j0 ∈ r.selK.filter fun i =>
        decide ((jitterWeights plan r.eps).getD i 0 =
          listMax (r.selK.map fun i2 =>
            (jitterWeights plan r.eps).getD i2 0)) :=
      List.mem_filter.mpr ⟨hj0, decide_eq_true hj0w⟩
    intro hcon
    rw [hcon] at hj0in
    exact absurd hj0in (List.not_mem_nil _)
  obtain ⟨j, hjmem, hpick⟩ := pick1_exists htne r.tie
  have hjsel := List.mem_of_mem_filter hjmem
  have hjw : (jitterWeights plan r.eps).getD j 0 =
      listMax (r.selK.map fun i2 => (jitterWeights plan r.eps).getD i2 0) := by
    simpa using List.of_mem_filter hjmem
  have hjlt : j < plan.length := hb j hjsel
  refine ⟨j, hjsel, plan[j], List.getElem?_eq_getElem hjlt, ?_, hjw⟩
  rw [sampleProds_weighted_one, weightedOne_step hsamp, hpick]
  show Option.map SampleResult.row plan[j]? = some (.row plan[j])
  rw [List.getElem?_eq_getElem hjlt]
  rfl

/-- Witness for C1 (amended) on a 7-row group with constant noise. -/
theorem weighted_single_draw7_keep_max_witness :
    ∃ j ∈ ([0, 1, 2, 3, 4, 5, 6] : List Nat), ∃ row,
      ([⟨0, 100, 1, 7⟩, ⟨1, 101, 1, 6⟩, ⟨2, 102, 1, 5⟩, ⟨3, 103, 1, 4⟩,
        ⟨4, 104, 1, 3⟩, ⟨5, 105, 1, 2⟩, ⟨6, 106, 1, 1⟩] : List Row)[j]? =
          some row ∧
      sampleProds .weighted
        [⟨0, 100, 1, 7⟩, ⟨1, 101, 1, 6⟩, ⟨2, 102, 1, 5⟩, ⟨3, 103, 1, 4⟩,
         ⟨4, 104, 1, 3⟩, ⟨5, 105, 1, 2⟩, ⟨6, 106, 1, 1⟩] 1
        ⟨fun _ => mkRat 1 1000000000, [0, 1, 2, 3, 4, 5, 6], 0, []⟩ =
          some (.row row) ∧
      (jitterWeights
        [⟨0, 100, 1, 7⟩, ⟨1, 101, 1, 6⟩, ⟨2, 102, 1, 5⟩, ⟨3, 103, 1, 4⟩,
         ⟨4, 104, 1, 3⟩, ⟨5, 105, 1, 2⟩, ⟨6, 106, 1, 1⟩]
        (fun _ => mkRat 1 1000000000)).getD j 0 =
        listMax (([0, 1, 2, 3, 4, 5, 6] : List Nat).map fun i =>
          (jitterWeights
            [⟨0, 100, 1, 7⟩, ⟨1, 101, 1, 6⟩, ⟨2, 102, 1, 5⟩, ⟨3, 103, 1, 4⟩,
             ⟨4, 104, 1, 3⟩, ⟨5, 105, 1, 2⟩, ⟨6, 106, 1, 1⟩]
            (fun _ => mkRat 1 1000000000)).getD i 0) :=
  weighted_single_draw7_keep_max
    [⟨0, 100, 1, 7⟩, ⟨1, 101, 1, 6⟩, ⟨2, 102, 1, 5⟩, ⟨3, 103, 1, 4⟩,
     ⟨4, 104, 1, 3⟩, ⟨5, 105, 1, 2⟩, ⟨6, 106, 1, 1⟩]
    ⟨fun _ => mkRat 1 1000000000, [0, 1, 2, 3, 4, 5, 6], 0, []⟩
    (by decide) (by decide) (fun i _ => by constructor <;> norm_num)
    (by decide) (by decide) (by decide)

/-- C8: in `weighted` sampling with `n > 1` and `n` different from the
group size, when every remaining row after removing the positive ties at
the maximum post-noise weight (here: all rows tie at weight `c`), the
negative-sampling weights `(max remaining weight - own weight)` are all
zero, and the code reaches the negative weighted draw with no guard for
this zero-total-weight case, so the call raises. -/
theorem negatives_zero_weight_unguarded (plan : List Row) (r : Draws)
    (n : Int) (c : ℚ) (h1 : 1 < n) (h2 : plan.length ≠ n.toNat)
    (h5 : 5 ≤ plan.length) (hc : 0 < c)
    (hw : ∀ i, i < plan.length → (jitterWeights plan r.eps).getD i 0 = c)
    (hlen : r.selK.length = 5) (hnd : r.selK.Nodup)
    (hb : ∀ i ∈ r.selK, i < plan.length) :
    (∀ ip, ip < plan.length →
      ∀ w ∈ negWeights ((plan.zip (jitterWeights plan r.eps)).eraseIdx ip),
        w = 0) ∧
    sampleProds .weighted plan n r = none := by
  have hwlen := jitterWeights_length plan r.eps
  have hzlen : (plan.zip (jitterWeights plan r.eps)).length = plan.length := by
    rw [List.length_zip, hwlen, Nat.min_self]
  have hallw : ∀ w ∈ jitterWeights plan r.eps, w = c := by
    intro w hwmem
    obtain ⟨i, hi, hwi⟩ := List.mem_iff_getElem.mp hwmem
    rw [hwlen] at hi
    have hgi := hw i hi
    rw [List.getD_eq_getElem _ _ (by rwa [hwlen])] at hgi
    rw [← hwi]
    exact hgi
  have hpairc : ∀ p ∈ plan.zip (jitterWeights plan r.eps), p.2 = c := by
    intro p hp
    rcases p with ⟨a, b⟩
    exact hallw b (List.of_mem_zip hp).2
  have hzero : ∀ ip, ip < plan.length →
      ∀ w ∈ negWeights ((plan.zip (jitterWeights plan r.eps)).eraseIdx ip),
        w = 0 := by
    intro ip hip w hwmem
    unfold negWeights at hwmem
    obtain ⟨p, hp, hpw⟩ := List.mem_map.mp hwmem
    have hpc : p.2 = c :=
      hpairc p ((List.eraseIdx_sublist _ ip).subset hp)
    have hremlen :
        ((plan.zip (jitterWeights plan r.eps)).eraseIdx ip).length =
          plan.length - 1 := by
      rw [List.length_eraseIdx_of_lt (by rwa [hzlen]), hzlen]
    have hmaxc : listMax
        (((plan.zip (jitterWeights plan r.eps)).eraseIdx ip).map Prod.snd) =
          c := by
      apply listMax_const
      · intro x hx
        obtain ⟨q, hq, hqx⟩ := List.mem_map.mp hx
        rw [← hqx]
        exact hpairc q ((List.eraseIdx_sublist _ ip).subset hq)
      · intro hcon
        have hclen := congrArg List.length hcon
        simp only [List.length_map, hremlen, List.length_nil] at hclen
        omega
    rw [← hpw, hmaxc, hpc, sub_self]
  refine ⟨hzero, ?_⟩
  have hpos : ∀ w ∈ jitterWeights plan r.eps, 0 < w := fun w hw2 =>
    (hallw w hw2) ▸ hc
  have hsamp : wsampleIdx (jitterWeights plan r.eps) 5 r.selK =
      some r.selK :=
    wsampleIdx_succeeds (by omega) hpos hlen hnd fun i hi => by
      rw [hwlen]
      exact hb i hi
  have hmc : listMax (r.selK.map fun i2 =>
      (jitterWeights plan r.eps).getD i2 0) = c := by
    apply listMax_const
    · intro x hx
      obtain ⟨i, hi, hix⟩ := List.mem_map.mp hx
      rw [← hix]
      exact hw i (hb i hi)
    · intro hcon
      have hclen := congrArg List.length hcon
      simp [hlen] at hclen
  have htied : (r.selK.filter fun i =>
      decide ((jitterWeights plan r.eps).getD i 0 =
        listMax (r.selK.map fun i2 =>
          (jitterWeights plan r.eps).getD i2 0))) = r.selK := by
    apply List.filter_eq_self.mpr
    intro i hi
    apply decide_eq_true
    rw [hmc]
    exact hw i (hb i hi)
  have hselne : r.selK ≠ [] := by
    intro hcon
    rw [hcon] at hlen
    simp at hlen
  obtain ⟨ip, hipmem, hpick⟩ := pick1_exists hselne r.tie
  have hiplt : ip < plan.length := hb ip hipmem
  have hip2 : ip < (plan.zip (jitterWeights plan r.eps)).length := by
    rwa [hzlen]
  have hnone : wsampleIdx
      (negWeights ((plan.zip (jitterWeights plan r.eps)).eraseIdx ip))
      (n.toNat - 1) r.selNeg = none :=
    wsampleIdx_none_of_all_zero (by omega) (hzero ip hiplt) r.selNeg
  rw [sampleProds_weighted_multi plan r h1 h2, weightedMulti_step hsamp,
    htied, hpick]
  simp only [List.getElem?_eq_getElem hip2, hnone]

theorem getD_eraseIdx_ite {α : Type} [Inhabited α] (l : List α) (ip j : Nat) :
    (l.eraseIdx ip).getD j default =
      l.getD (if j < ip then j else j + 1) default := by
  rw [List.getD_eq_getElem?_getD, List.getD_eq_getElem?_getD]
  split
  · rw [List.getElem?_eraseIdx_of_lt _ _ _ (by assumption)]
  · rw [List.getElem?_eraseIdx_of_ge _ _ _ (by omega)]

theorem nodup_map_getD_inj {α β : Type} [Inhabited α] {l : List α}
    {f : α → β} (h : (l.map f).Nodup) {i j : Nat} (hi : i < l.length)
    (hj : j < l.length)
    (hf : f (l.getD i default) = f (l.getD j default)) : i = j := by
  have hinj := List.nodup_iff_injective_getElem.mp h
  have hi2 : i < (l.map f).length := by simpa using hi
  have hj2 : j < (l.map f).length := by simpa using hj
  rw [List.getD_eq_getElem _ _ hi, List.getD_eq_getElem _ _ hj] at hf
  have hcall : (fun k : Fin (l.map f).length => (l.map f)[k.1]) ⟨i, hi2⟩ =
      (fun k : Fin (l.map f).length => (l.map f)[k.1]) ⟨j, hj2⟩ := by
    simp only [List.getElem_map]
    exact hf
  have hfin := hinj hcall
  simpa using hfin

/-- C2 (amended): whenever the `weighted` branch with `n > 1` and `n`
different from the group size returns at all (the 5-row positive draw
raises on groups smaller than 5), the result is a DataFrame obtained from
weighted rows by dropping the synthetic weight column, holding exactly `n`
rows of the plan group, sorted by post-noise weight descending, with no
duplicate product ids whenever the group has none. -/
theorem weighted_multi_result_shape (plan : List Row) (r : Draws) (n : Int)
    (res : SampleResult) (h1 : 1 < n) (h2 : plan.length ≠ n.toNat)
    (hnodup : (plan.map Row.prodId).Nodup)
    (hres : sampleProds .weighted plan n r = some res) :
    ∃ wrows : List (Row × ℚ),
      res = .df (wrows.map Prod.fst) ∧
      wrows.length = n.toNat ∧
      List.Sorted wGE wrows ∧
      (∀ p ∈ wrows, p.1 ∈ plan) ∧
      (wrows.map fun p => p.1.prodId).Nodup := by
  rw [sampleProds_weighted_multi plan r h1 h2] at hres
  have hwlen := jitterWeights_length plan r.eps
  have hzlen : (plan.zip (jitterWeights plan r.eps)).length = plan.length := by
    rw [List.length_zip, hwlen, Nat.min_self]
  cases hs : wsampleIdx (jitterWeights plan r.eps) 5 r.selK with
  | none =>
    unfold weightedMulti at hres
    rw [hs] at hres
    simp at hres
  | some sel =>
    obtain ⟨hseleq, hsellen, hselnd, hselb⟩ := wsampleIdx_eq_some hs
    subst hseleq
    rw [weightedMulti_step hs] at hres
    cases hp : pick1 (r.selK.filter fun i =>
        decide ((jitterWeights plan r.eps).getD i 0 =
          listMax (r.selK.map fun i2 =>
            (jitterWeights plan r.eps).getD i2 0))) r.tie with
    | none =>
      rw [hp] at hres
      simp at hres
    | some ip =>
      rw [hp] at hres
      have hipsel : ip ∈ r.selK := List.mem_of_mem_filter (pick1_mem hp)
      have hiplt : ip < plan.length := by
        have := (hselb ip hipsel).1
        omega
      have hipz : ip < (plan.zip (jitterWeights plan r.eps)).length := by
        omega
      have hres2 : (match (plan.zip (jitterWeights plan r.eps))[ip]? with
          | none => none
          | some pos =>
            match wsampleIdx
                (negWeights
                  ((plan.zip (jitterWeights plan r.eps)).eraseIdx ip))
                (n.toNat - 1) r.selNeg with
            | none => none
            | some nidxs =>
              some (.df ((sortDescW (pos ::
                idxSelect ((plan.zip (jitterWeights plan r.eps)).eraseIdx ip)
                  nidxs)).map Prod.fst))) = some res := hres
      rw [List.getElem?_eq_getElem hipz] at hres2
      have hres3 : (match wsampleIdx
            (negWeights ((plan.zip (jitterWeights plan r.eps)).eraseIdx ip))
            (n.toNat - 1) r.selNeg with
          | none => none
          | some nidxs =>
            some (.df ((sortDescW
              ((plan.zip (jitterWeights plan r.eps))[ip] ::
                idxSelect ((plan.zip (jitterWeights plan r.eps)).eraseIdx ip)
                  nidxs)).map Prod.fst))) = some res := hres2
      cases hneg : wsampleIdx
          (negWeights ((plan.zip (jitterWeights plan r.eps)).eraseIdx ip))
          (n.toNat - 1) r.selNeg with
      | none =>
        rw [hneg] at hres3
        simp at hres3
      | some nidxs =>
        obtain ⟨hnege, hneglen, hnegnd, hnegb⟩ := wsampleIdx_eq_some hneg
        subst hnege
        rw [hneg] at hres3
        have hres4 : some (SampleResult.df ((sortDescW
            ((plan.zip (jitterWeights plan r.eps))[ip] ::
              idxSelect ((plan.zip (jitterWeights plan r.eps)).eraseIdx ip)
                r.selNeg)).map Prod.fst)) = some res := hres3
        have hresEq := (Option.some.inj hres4).symm
        have hremlen :
            ((plan.zip (jitterWeights plan r.eps)).eraseIdx ip).length =
              plan.length - 1 := by
          rw [List.length_eraseIdx_of_lt hipz, hzlen]
        have hnegb2 : ∀ j ∈ r.selNeg,
            j < ((plan.zip (jitterWeights plan r.eps)).eraseIdx ip).length := by
          intro j hj
          have := (hnegb j hj).1
          simpa [negWeights] using this
        have hmemplan : ∀ p : Row × ℚ,
            p ∈ plan.zip (jitterWeights plan r.eps) → p.1 ∈ plan := by
          intro p hp3
          exact (List.of_mem_zip hp3).1
        have hwmapnd : ((plan.zip (jitterWeights plan r.eps)).map
            fun p => p.1.prodId).Nodup := by
          have hcomp : ((plan.zip (jitterWeights plan r.eps)).map
              fun p => p.1.prodId) =
              ((plan.zip (jitterWeights plan r.eps)).map Prod.fst).map
                Row.prodId := by
            rw [List.map_map]
            rfl
          rw [hcomp, List.map_fst_zip _ _ (by omega)]
          exact hnodup
        have hselmap : idxSelect
            ((plan.zip (jitterWeights plan r.eps)).eraseIdx ip) r.selNeg =
            r.selNeg.map fun j =>
              ((plan.zip (jitterWeights plan r.eps)).eraseIdx ip).getD j
                default :=
          idxSelect_eq_map hnegb2
        refine ⟨sortDescW ((plan.zip (jitterWeights plan r.eps))[ip] ::
          idxSelect ((plan.zip (jitterWeights plan r.eps)).eraseIdx ip)
            r.selNeg), hresEq, ?_, sortDescW_sorted _, ?_, ?_⟩
        · have hlsort := (sortDescW_perm
            ((plan.zip (jitterWeights plan r.eps))[ip] ::
              idxSelect ((plan.zip (jitterWeights plan r.eps)).eraseIdx ip)
                r.selNeg)).length_eq
          rw [hlsort, List.length_cons, idxSelect_length hnegb2, hneglen]
          omega
        · intro p hp2
          have hp3 := (sortDescW_perm _).mem_iff.mp hp2
          rcases List.mem_cons.mp hp3 with hpe | hpn
          · rw [hpe]
            exact hmemplan _ (List.getElem_mem hipz)
          · obtain ⟨j, hj, hjp⟩ := List.mem_filterMap.mp hpn
            exact hmemplan _
              ((List.eraseIdx_sublist _ ip).subset (List.getElem?_mem hjp))
        · have hpermmap := (sortDescW_perm
            ((plan.zip (jitterWeights plan r.eps))[ip] ::
              idxSelect ((plan.zip (jitterWeights plan r.eps)).eraseIdx ip)
                r.selNeg)).map fun p => p.1.prodId
          rw [hpermmap.nodup_iff, hselmap, List.map_cons, List.map_map,
            List.nodup_cons]
          constructor
          · intro hcon
            obtain ⟨j, hj, hje⟩ := List.mem_map.mp hcon
            simp only [Function.comp] at hje
            rw [getD_eraseIdx_ite] at hje
            rw [← List.getD_eq_getElem _ _ hipz] at hje
            have hjr := hnegb2 j hj
            rw [hremlen] at hjr
            have hjlt : (if j < ip then j else j + 1) <
                (plan.zip (jitterWeights plan r.eps)).length := by
              split_ifs <;> omega
            have := nodup_map_getD_inj hwmapnd hjlt hipz hje
            split_ifs at this <;> omega
          · apply List.Nodup.map_on ?_ hnegnd
            intro j1 hj1 j2 hj2 hfe
            simp only [Function.comp] at hfe
            rw [getD_eraseIdx_ite, getD_eraseIdx_ite] at hfe
            have hj1r := hnegb2 j1 hj1
            have hj2r := hnegb2 j2 hj2
            rw [hremlen] at hj1r hj2r
            have hj1lt : (if j1 < ip then j1 else j1 + 1) <
                (plan.zip (jitterWeights plan r.eps)).length := by
              split_ifs <;> omega
            have hj2lt : (if j2 < ip then j2 else j2 + 1) <
                (plan.zip (jitterWeights plan r.eps)).length := by
              split_ifs <;> omega
            have := nodup_map_getD_inj hwmapnd hj1lt hj2lt hfe
            split_ifs at this <;> omega

/-- C2 counterexample: the claim covers every group with `n > 1` and
`n` smaller than the group size, but on a 3-row group with `n = 2` the
positive draw requests 5 rows without replacement from 3 rows, so pandas
raises and no `n`-row set is returned. -/
theorem weighted_multi_small_group_raises :
    (1 : Int) < 2 ∧
    (2 : Int).toNat <
      ([⟨0, 100, 1, 5⟩, ⟨1, 101, 1, 4⟩, ⟨2, 102, 1, 3⟩] : List Row).length ∧
    sampleProds .weighted [⟨0, 100, 1, 5⟩, ⟨1, 101, 1, 4⟩, ⟨2, 102, 1, 3⟩] 2
      ⟨fun _ => 0, [0, 1], 0, [0]⟩ = none := by decide

/-- Witness for C2 (amended) on a 5-row group with `n = 2`. -/
theorem weighted_multi_result_shape_witness :
    ∃ wrows : List (Row × ℚ),
      (SampleResult.df [⟨0, 100, 1, 5⟩, ⟨2, 102, 1, 3⟩] : SampleResult) =
        .df (wrows.map Prod.fst) ∧
      wrows.length = (2 : Int).toNat ∧
      List.Sorted wGE wrows ∧
      (∀ p ∈ wrows, p.1 ∈ ([⟨0, 100, 1, 5⟩, ⟨1, 101, 1, 4⟩, ⟨2, 102, 1, 3⟩,
        ⟨3, 103, 1, 2⟩, ⟨4, 104, 1, 1⟩] : List Row)) ∧
      (wrows.map fun p => p.1.prodId).Nodup :=
  weighted_multi_result_shape
    [⟨0, 100, 1, 5⟩, ⟨1, 101, 1, 4⟩, ⟨2, 102, 1, 3⟩, ⟨3, 103, 1, 2⟩,
     ⟨4, 104, 1, 1⟩]
    ⟨fun _ => mkRat 1 1000000000, [0, 1, 2, 3, 4], 0, [1]⟩ 2
    (.df [⟨0, 100, 1, 5⟩, ⟨2, 102, 1, 3⟩]) (by decide) (by decide)
    (by decide) (by decide)

/-- Witness for C8 on a 6-row group of identical scores with zero noise and
`n = 2`. -/
theorem negatives_zero_weight_unguarded_witness :
    (∀ ip, ip < ([⟨0, 100, 1, 1⟩, ⟨1, 101, 1, 1⟩, ⟨2, 102, 1, 1⟩,
        ⟨3, 103, 1, 1⟩, ⟨4, 104, 1, 1⟩, ⟨5, 105, 1, 1⟩] : List Row).length →
      ∀ w ∈ negWeights ((([⟨0, 100, 1, 1⟩, ⟨1, 101, 1, 1⟩, ⟨2, 102, 1, 1⟩,
          ⟨3, 103, 1, 1⟩, ⟨4, 104, 1, 1⟩, ⟨5, 105, 1, 1⟩] : List Row).zip
        (jitterWeights [⟨0, 100, 1, 1⟩, ⟨1, 101, 1, 1⟩, ⟨2, 102, 1, 1⟩,
          ⟨3, 103, 1, 1⟩, ⟨4, 104, 1, 1⟩, ⟨5, 105, 1, 1⟩]
          (fun _ => 0))).eraseIdx ip), w = 0) ∧
    sampleProds .weighted [⟨0, 100, 1, 1⟩, ⟨1, 101, 1, 1⟩, ⟨2, 102, 1, 1⟩,
        ⟨3, 103, 1, 1⟩, ⟨4, 104, 1, 1⟩, ⟨5, 105, 1, 1⟩] 2
      ⟨fun _ => 0, [0, 1, 2, 3, 4], 0, []⟩ = none :=
  negatives_zero_weight_unguarded
    [⟨0, 100, 1, 1⟩, ⟨1, 101, 1, 1⟩, ⟨2, 102, 1, 1⟩, ⟨3, 103, 1, 1⟩,
     ⟨4, 104, 1, 1⟩, ⟨5, 105, 1, 1⟩]
    ⟨fun _ => 0, [0, 1, 2, 3, 4], 0, []⟩ 2 1 (by decide) (by decide)
    (by decide) (by decide) (by decide) (by decide) (by decide) (by decide)
